import Mathlib

/-!
Shallow embedding of the download engine in
`src/src-tauri/src/mod_downloader/core.rs` (struct `Config`, struct
`HttpDownload` with `download`, `concurrent_download`, `get_chunk_offsets`,
and the free function `download_chunk`), together with theorems settling
the specification claims about it.

Machine integers: the Rust code uses `u64` for lengths/offsets and `i32`
for the retry counters.  Lengths and offsets are modelled as `Nat`
(no claim depends on `u64` wrap-around), the retry counters as `Int`
(no claim depends on `i32` wrap-around).
-/

namespace ModDownloader

/-- Header names, as stored (lower-case) by `reqwest::header::HeaderMap`. -/
def rangeKey : String := "range"

/-- The `accept-ranges` header name. -/
def acceptRangesKey : String := "accept-ranges"

/-- A `HeaderMap` modelled as an association list of (name, value) pairs. -/
abbrev HeadersModel : Type := List (String × String)

/-- `HeaderMap::contains_key`: some entry has the given name. -/
def containsKey (hs : HeadersModel) (k : String) : Bool :=
  hs.any (fun kv => kv.1 = k)

/-- `HeaderMap::remove`: all entries with the given name are removed. -/
def removeKey (hs : HeadersModel) (k : String) : HeadersModel :=
  hs.filter (fun kv => kv.1 ≠ k)

/-- The `Config` struct of `core.rs` (lines 15-29), field for field.
`HeaderMap` becomes `HeadersModel`, `u64`/`usize` become `Nat`, `i32`
becomes `Int`. -/
structure Config where
  user_agent : String
  resume : Bool
  headers : HeadersModel
  file : String
  save_path : String
  timeout : Nat
  concurrent : Bool
  max_retries : Int
  num_workers : Nat
  bytes_on_disk : Option Nat
  chunk_offsets : Option (List (Nat × Nat))
  chunk_size : Nat
deriving DecidableEq

/-- `HttpDownload::get_chunk_offsets` (core.rs lines 220-237): the for
loop over `0..no_of_chunks` pushing `(chunk * chunk_size, bound)` is the
map over `List.range no_of_chunks`; the trailing `if sizes.is_empty()`
fallback push is the `if` below.  Division is `Nat` division, matching
`u64` division for `chunk_size ≠ 0` (the `chunk_size = 0` panic is
modelled separately by `get_chunk_offsets_run`). -/
def get_chunk_offsets (content_len chunk_size : Nat) : List (Nat × Nat) :=
  let no_of_chunks := content_len / chunk_size
  let sizes := (List.range no_of_chunks).map (fun chunk =>
    (chunk * chunk_size,
      if chunk = no_of_chunks - 1 then content_len
      else (chunk + 1) * chunk_size - 1))
  if sizes.isEmpty then [(0, content_len)] else sizes

/-- `get_chunk_offsets` with Rust's run-time behaviour of the division
at core.rs line 221 made explicit: `content_len / chunk_size` on `u64`
panics when `chunk_size = 0`, modelled as `none`; otherwise the function
returns its result normally. -/
def get_chunk_offsets_run (content_len chunk_size : Nat) :
    Option (List (Nat × Nat)) :=
  if chunk_size = 0 then none
  else some (get_chunk_offsets content_len chunk_size)

/-- With at least one full chunk, `get_chunk_offsets` is the mapped range
(the empty-fallback branch is not taken). -/
lemma get_chunk_offsets_of_pos (L S : Nat) (hn : 0 < L / S) :
    get_chunk_offsets L S = (List.range (L / S)).map (fun chunk =>
      (chunk * S,
        if chunk = L / S - 1 then L else (chunk + 1) * S - 1)) := by
  unfold get_chunk_offsets
  have hne : ¬((List.range (L / S)).map (fun chunk =>
      (chunk * S,
        if chunk = L / S - 1 then L else (chunk + 1) * S - 1))).isEmpty = true := by
    simp only [List.isEmpty_iff, List.map_eq_nil_iff, List.range_eq_nil]
    exact Nat.pos_iff_ne_zero.mp hn
  simp [hne]

/-- Length of the partition when at least one full chunk fits. -/
lemma get_chunk_offsets_length (L S : Nat) (hn : 0 < L / S) :
    (get_chunk_offsets L S).length = L / S := by
  rw [get_chunk_offsets_of_pos L S hn]
  simp

/-- Element `i` of the partition when at least one full chunk fits. -/
lemma get_chunk_offsets_get (L S : Nat) (hn : 0 < L / S) (i : Nat)
    (h : i < (get_chunk_offsets L S).length) :
    (get_chunk_offsets L S).get ⟨i, h⟩ =
      (i * S, if i = L / S - 1 then L else (i + 1) * S - 1) := by
  have h' := h
  rw [get_chunk_offsets_length L S hn] at h'
  simp only [List.get_eq_getElem]
  rw [List.getElem_of_eq (get_chunk_offsets_of_pos L S hn)]
  simp [h']

/-- The partition is never the empty list. -/
lemma get_chunk_offsets_ne_nil (L S : Nat) : get_chunk_offsets L S ≠ [] := by
  by_cases hn : 0 < L / S
  · rw [get_chunk_offsets_of_pos L S hn]
    simp only [ne_eq, List.map_eq_nil_iff, List.range_eq_nil]
    exact Nat.pos_iff_ne_zero.mp hn
  · unfold get_chunk_offsets
    have hz : L / S = 0 := Nat.le_zero.mp (Nat.not_lt.mp hn)
    simp [hz]

end ModDownloader

namespace ModDownloader

/-- One scheduling event of the aggregation loop in `concurrent_download`
(core.rs lines 191-216): each iteration blocks on the data channel for a
`(byte_count, offset, buf)` triple (only `byte_count` matters for the
claims; `offset`/`buf` are passed through to the hooks untouched), then
does one non-blocking poll of the error channel, which nondeterministically
yields a failed chunk range or nothing.  An iteration is therefore a pair
`(byte_count, optional failed range)`, and a run of the loop is a list of
such pairs — one list per interleaving of chunk and error arrivals. -/
abbrev LoopEvent : Type := Nat × Option (Nat × Nat)

/-- Result of a normally terminating aggregation loop:
`delivered` — the `byte_count` values passed to `on_concurrent_content`
(each registered hook receives each of them, in this order, by the loop
over `self.hooks` at lines 197-200);
`resubmitted` — the failed chunk ranges resubmitted to the worker pool
(line 213), in order;
`maxRetriesFired` — how many times `on_max_retries` was fired on each hook
(lines 204-208);
`retriesFinal` — the final value of `self.retries`. -/
structure AggResult where
  delivered : List Nat
  resubmitted : List (Nat × Nat)
  maxRetriesFired : Nat
  retriesFinal : Int
deriving DecidableEq

/-- The aggregation loop of `concurrent_download` (core.rs lines 190-217),
run on a sequence of scheduling events.  `count` is the running total
(initialised from `bytes_on_disk` at line 190), `retries` is
`self.retries`.  The loop first tests `count == content_len` (line 192);
on a data receipt it adds `byte_count` (line 196) and delivers to the
hooks (lines 197-200); on an error receipt it fires `on_max_retries` iff
`retries > max_retries` *before* incrementing (lines 204-209), then
increments `retries` and resubmits the failed range (lines 209-213).
Running out of events while `count ≠ content_len` means the run did not
terminate normally (in the code the loop would block or `recv` would
fail), modelled as `none`. -/
def aggLoop (content_len : Nat) (max_retries : Int) :
    Nat → Int → List LoopEvent → Option AggResult
  | count, retries, evs =>
    if count = content_len then
      some ⟨[], [], 0, retries⟩
    else
      match evs with
      | [] => none
      | (byte_count, err) :: rest =>
        match err with
        | none =>
          match aggLoop content_len max_retries (count + byte_count) retries rest with
          | none => none
          | some r =>
            some ⟨byte_count :: r.delivered, r.resubmitted,
                  r.maxRetriesFired, r.retriesFinal⟩
        | some rng =>
          match aggLoop content_len max_retries
              (count + byte_count) (retries + 1) rest with
          | none => none
          | some r =>
            some ⟨byte_count :: r.delivered, rng :: r.resubmitted,
                  (if retries > max_retries then 1 else 0) + r.maxRetriesFired,
                  r.retriesFinal⟩

/-- Unfolding: with no further events the loop terminated normally iff
the running total already equals the content length. -/
lemma aggLoop_nil (cl : Nat) (maxR : Int) (count : Nat) (retries : Int) :
    aggLoop cl maxR count retries [] =
      if count = cl then some ⟨[], [], 0, retries⟩ else none := rfl

/-- Unfolding: a data receipt with no pending error. -/
lemma aggLoop_cons_none (cl : Nat) (maxR : Int) (count : Nat) (retries : Int)
    (bc : Nat) (rest : List LoopEvent) :
    aggLoop cl maxR count retries (((bc, none) : LoopEvent) :: rest) =
      if count = cl then some ⟨[], [], 0, retries⟩
      else
        match aggLoop cl maxR (count + bc) retries rest with
        | none => none
        | some r => some ⟨bc :: r.delivered, r.resubmitted,
                          r.maxRetriesFired, r.retriesFinal⟩ := rfl

/-- Unfolding: a data receipt followed by a pending failed chunk range. -/
lemma aggLoop_cons_some (cl : Nat) (maxR : Int) (count : Nat) (retries : Int)
    (bc : Nat) (rng : Nat × Nat) (rest : List LoopEvent) :
    aggLoop cl maxR count retries (((bc, some rng) : LoopEvent) :: rest) =
      if count = cl then some ⟨[], [], 0, retries⟩
      else
        match aggLoop cl maxR (count + bc) (retries + 1) rest with
        | none => none
        | some r => some ⟨bc :: r.delivered, rng :: r.resubmitted,
                          (if retries > maxR then 1 else 0) + r.maxRetriesFired,
                          r.retriesFinal⟩ := rfl

/-- `concurrent_download` (core.rs lines 172-218) as seen by the claims:
the running total starts at `conf.bytes_on_disk.unwrap_or(0)` (line 190)
and `self.retries` starts at `0` (`HttpDownload::new`, line 78). -/
def concurrent_download (content_len : Nat) (max_retries : Int)
    (bytes_on_disk : Option Nat) (evs : List LoopEvent) : Option AggResult :=
  aggLoop content_len max_retries (bytes_on_disk.getD 0) 0 evs

/-- Claim C1 (as stated by the spec) is false: at `content_length = 2500`,
`chunk_size = 1000` the partitioner returns the two ranges
`[(0,999), (1000,2500)]` (the last chunk absorbs the whole remainder),
not the three ranges `[(0,999), (1000,1999), (2000,2500)]` the claim
demands. -/
theorem C1_counterexample :
    get_chunk_offsets 2500 1000 = [(0, 999), (1000, 2500)] ∧
      get_chunk_offsets 2500 1000 ≠ [(0, 999), (1000, 1999), (2000, 2500)] := by
  constructor <;> decide

/-- Claim C1 amended: for `content_length = 2500` and `chunk_size = 1000`
the chunk partitioner returns exactly `[(0,999), (1000,2500)]` — the
number of chunks is `2500 / 1000 = 2` and the last chunk absorbs the
remainder, as core.rs lines 224-231 compute. -/
theorem C1_partition_2500_1000 :
    get_chunk_offsets 2500 1000 = [(0, 999), (1000, 2500)] := by
  decide

/-- Claim C6: for every `(content_length, chunk_size)` with both strictly
positive, the ranges returned by `get_chunk_offsets`, taken in order, are
ascending, non-overlapping and contiguous: the list is non-empty, the
first range starts at 0, each subsequent range starts immediately after
the previous one ends, the last range ends at `content_length`, and each
range has start ≤ end. -/
theorem C6_coverage (L S : Nat) (hL : 0 < L) (hS : 0 < S) :
    get_chunk_offsets L S ≠ [] ∧
    ((get_chunk_offsets L S).head?).map Prod.fst = some 0 ∧
    ((get_chunk_offsets L S).getLast?).map Prod.snd = some L ∧
    (∀ i, ∀ h : i < (get_chunk_offsets L S).length,
      ((get_chunk_offsets L S).get ⟨i, h⟩).1 ≤
        ((get_chunk_offsets L S).get ⟨i, h⟩).2) ∧
    (∀ i, ∀ h : i + 1 < (get_chunk_offsets L S).length,
      ((get_chunk_offsets L S).get ⟨i + 1, h⟩).1 =
        ((get_chunk_offsets L S).get ⟨i, Nat.lt_of_succ_lt h⟩).2 + 1) := by
  by_cases hn : 0 < L / S
  · have hlen := get_chunk_offsets_length L S hn
    have hget := get_chunk_offsets_get L S hn
    have hmul : L / S * S ≤ L := Nat.div_mul_le_self L S
    refine ⟨get_chunk_offsets_ne_nil L S, ?_, ?_, ?_, ?_⟩
    · rw [List.head?_eq_getElem?]
      have h0 : 0 < (get_chunk_offsets L S).length := hlen ▸ hn
      rw [List.getElem?_eq_getElem h0]
      have := hget 0 h0
      simp only [List.get_eq_getElem] at this
      simp [this]
    · rw [List.getLast?_eq_getElem?]
      have h0 : 0 < (get_chunk_offsets L S).length := hlen ▸ hn
      have hlast : (get_chunk_offsets L S).length - 1 <
          (get_chunk_offsets L S).length := by omega
      rw [List.getElem?_eq_getElem hlast]
      have := hget ((get_chunk_offsets L S).length - 1) hlast
      simp only [List.get_eq_getElem] at this
      rw [this]
      have hidx : (get_chunk_offsets L S).length - 1 = L / S - 1 := by
        rw [hlen]
      simp [hidx]
    · intro i h
      rw [hget i h]
      have hi : i < L / S := hlen ▸ h
      by_cases hl : i = L / S - 1
      · simp only [hl, if_true]
        calc (L / S - 1) * S ≤ L / S * S := by
              exact Nat.mul_le_mul_right S (by omega)
          _ ≤ L := hmul
      · simp only [hl, if_false]
        have hexp : (i + 1) * S = i * S + S := by ring
        omega
    · intro i h
      rw [hget (i + 1) h, hget i (Nat.lt_of_succ_lt h)]
      have hi : i + 1 < L / S := hlen ▸ h
      have hne : ¬(i = L / S - 1) := by omega
      simp only [hne, if_false]
      have hpos : 0 < (i + 1) * S := Nat.mul_pos (by omega) hS
      omega
  · -- L < S: single fallback chunk (0, L)
    have hz : L / S = 0 := Nat.le_zero.mp (Nat.not_lt.mp hn)
    have hcs : get_chunk_offsets L S = [(0, L)] := by
      unfold get_chunk_offsets
      simp [hz]
    refine ⟨by simp [hcs], by simp [hcs], by simp [hcs], ?_, ?_⟩
    · simp only [hcs]
      intro i h
      simp only [List.length_singleton] at h
      interval_cases i
      simp [hcs]
    · simp only [hcs]
      intro i h
      simp only [List.length_singleton] at h
      omega

/-- Witness for C6 at the concrete input `L = 2500`, `S = 1000`. -/
theorem C6_coverage_witness :
    get_chunk_offsets 2500 1000 ≠ [] ∧
    ((get_chunk_offsets 2500 1000).head?).map Prod.fst = some 0 ∧
    ((get_chunk_offsets 2500 1000).getLast?).map Prod.snd = some 2500 ∧
    (∀ i, ∀ h : i < (get_chunk_offsets 2500 1000).length,
      ((get_chunk_offsets 2500 1000).get ⟨i, h⟩).1 ≤
        ((get_chunk_offsets 2500 1000).get ⟨i, h⟩).2) ∧
    (∀ i, ∀ h : i + 1 < (get_chunk_offsets 2500 1000).length,
      ((get_chunk_offsets 2500 1000).get ⟨i + 1, h⟩).1 =
        ((get_chunk_offsets 2500 1000).get ⟨i, Nat.lt_of_succ_lt h⟩).2 + 1) :=
  C6_coverage 2500 1000 (by decide) (by decide)

/-- Claim C10: `get_chunk_offsets` is total only under the precondition
`chunk_size > 0`: the unguarded `u64` division `content_len / chunk_size`
at core.rs line 221 panics for `chunk_size = 0` (modelled as `none` in
`get_chunk_offsets_run`), while for every `chunk_size > 0` and every
`content_len` it returns a non-empty list. -/
theorem C10_totality :
    (∀ L, get_chunk_offsets_run L 0 = none) ∧
    (∀ L S, 0 < S →
      ∃ xs, get_chunk_offsets_run L S = some xs ∧ xs ≠ []) := by
  constructor
  · intro L
    simp [get_chunk_offsets_run]
  · intro L S hS
    refine ⟨get_chunk_offsets L S, ?_, get_chunk_offsets_ne_nil L S⟩
    simp [get_chunk_offsets_run, Nat.pos_iff_ne_zero.mp hS]

/-- Witness for C10 at the concrete inputs `(7, 0)` and `(2500, 1000)`. -/
theorem C10_totality_witness :
    get_chunk_offsets_run 7 0 = none ∧
    ∃ xs, get_chunk_offsets_run 2500 1000 = some xs ∧ xs ≠ [] :=
  ⟨C10_totality.1 7, C10_totality.2 2500 1000 (by decide)⟩

/-- Conservation invariant of the aggregation loop: on a normally
terminating run, the initial running total plus the sum of the delivered
`byte_count` values equals the content length. -/
lemma aggLoop_sum (cl : Nat) (maxR : Int) :
    ∀ (evs : List LoopEvent) (count : Nat) (retries : Int) (r : AggResult),
      aggLoop cl maxR count retries evs = some r →
      count + r.delivered.sum = cl := by
  intro evs
  induction evs with
  | nil =>
    intro count retries r h
    rw [aggLoop_nil] at h
    by_cases hc : count = cl
    · rw [if_pos hc] at h
      cases h
      simpa using hc
    · rw [if_neg hc] at h
      cases h
  | cons ev rest ih =>
    intro count retries r h
    obtain ⟨bc, err⟩ := ev
    by_cases hc : count = cl
    · cases err with
      | none =>
        rw [aggLoop_cons_none, if_pos hc] at h
        cases h
        simpa using hc
      | some rng =>
        rw [aggLoop_cons_some, if_pos hc] at h
        cases h
        simpa using hc
    · cases err with
      | none =>
        rw [aggLoop_cons_none, if_neg hc] at h
        cases hrec : aggLoop cl maxR (count + bc) retries rest with
        | none => rw [hrec] at h; simp at h
        | some r' =>
          rw [hrec] at h
          simp only [] at h
          cases h
          have hsum := ih (count + bc) retries r' hrec
          simp only [List.sum_cons]
          omega
      | some rng =>
        rw [aggLoop_cons_some, if_neg hc] at h
        cases hrec : aggLoop cl maxR (count + bc) (retries + 1) rest with
        | none => rw [hrec] at h; simp at h
        | some r' =>
          rw [hrec] at h
          simp only [] at h
          cases h
          have hsum := ih (count + bc) (retries + 1) r' hrec
          simp only [List.sum_cons]
          omega

/-- Claim C2 (as stated) is false once `bytes_on_disk` is set: this
terminating run has `content_length = 1000`, `bytes_on_disk = 500` and a
single arrival of 500 bytes; it delivers only `byte_count` values summing
to `500 ≠ 1000`, because the running total starts at `bytes_on_disk`
(core.rs line 190). -/
theorem C2_counterexample :
    concurrent_download 1000 0 (some 500) [(500, none)] =
      some ⟨[500], [], 0, 0⟩ ∧
    ([500] : List Nat).sum ≠ 1000 := by
  constructor <;> decide

/-- Claim C2 amended: for every normally terminating run of the
concurrent path, the sum of the `byte_count` values delivered to the
hooks equals `content_length` minus the initial `bytes_on_disk` (taken as
`0` when absent); it equals `content_length` itself exactly when
`bytes_on_disk` is absent or zero. -/
theorem C2_conservation (content_len : Nat) (max_retries : Int)
    (bytes_on_disk : Option Nat) (evs : List LoopEvent) (r : AggResult)
    (h : concurrent_download content_len max_retries bytes_on_disk evs = some r) :
    bytes_on_disk.getD 0 + r.delivered.sum = content_len :=
  aggLoop_sum content_len max_retries evs (bytes_on_disk.getD 0) 0 r h

/-- Witness for C2 at the concrete run of `C2_counterexample`. -/
theorem C2_conservation_witness :
    (some 500 : Option Nat).getD 0 +
      (AggResult.mk [500] [] 0 0).delivered.sum = 1000 :=
  C2_conservation 1000 0 (some 500) [(500, none)] ⟨[500], [], 0, 0⟩ (by decide)

/-- Counting fires over `[0, n+1)` with threshold test `r0 + k > maxR`
peels off index `0` and shifts the base of the remaining indices. -/
lemma countP_range_succ_shift (maxR : Int) :
    ∀ (n : Nat) (r0 : Int),
      (List.range (n + 1)).countP (fun (k : Nat) => decide (r0 + (k : Int) > maxR)) =
        (if r0 > maxR then 1 else 0) +
          (List.range n).countP
            (fun (k : Nat) => decide (r0 + 1 + (k : Int) > maxR)) := by
  intro n
  induction n with
  | zero =>
    intro r0
    have h1 : List.range 1 = [0] := rfl
    rw [h1]
    simp only [List.range_zero, List.countP_nil, List.countP_cons,
      add_zero, Nat.cast_zero]
    by_cases hr : r0 > maxR <;> simp [hr]
  | succ n ihn =>
    intro r0
    rw [show n + 1 + 1 = (n + 1) + 1 from rfl, List.range_succ,
      List.countP_append, ihn r0]
    conv_rhs => rw [List.range_succ, List.countP_append]
    have heq : (decide (r0 + ((n + 1 : Nat) : Int) > maxR)) =
        (decide (r0 + 1 + (n : Int) > maxR)) := by
      apply decide_eq_decide.mpr
      constructor <;> intro hlt <;> push_cast at hlt ⊢ <;> omega
    simp only [List.countP_cons, List.countP_nil, heq]
    omega

/-- Retry bookkeeping of the aggregation loop: on a normally terminating
run the final retry counter is the initial one plus the number of failed
ranges received, and `on_max_retries` fires exactly at those failures
whose 0-based index `k` satisfies `r0 + k > max_retries` — the comparison
the code makes *before* incrementing (core.rs line 204). -/
lemma aggLoop_retries (cl : Nat) (maxR : Int) :
    ∀ (evs : List LoopEvent) (count : Nat) (r0 : Int) (r : AggResult),
      aggLoop cl maxR count r0 evs = some r →
      r.retriesFinal = r0 + r.resubmitted.length ∧
      r.maxRetriesFired =
        (List.range r.resubmitted.length).countP
          (fun (k : Nat) => decide (r0 + (k : Int) > maxR)) := by
  intro evs
  induction evs with
  | nil =>
    intro count r0 r h
    rw [aggLoop_nil] at h
    by_cases hc : count = cl
    · rw [if_pos hc] at h
      cases h
      simp
    · rw [if_neg hc] at h
      cases h
  | cons ev rest ih =>
    intro count r0 r h
    obtain ⟨bc, err⟩ := ev
    by_cases hc : count = cl
    · cases err with
      | none =>
        rw [aggLoop_cons_none, if_pos hc] at h
        cases h
        simp
      | some rng =>
        rw [aggLoop_cons_some, if_pos hc] at h
        cases h
        simp
    · cases err with
      | none =>
        rw [aggLoop_cons_none, if_neg hc] at h
        cases hrec : aggLoop cl maxR (count + bc) r0 rest with
        | none => rw [hrec] at h; simp at h
        | some r' =>
          rw [hrec] at h
          simp only [] at h
          cases h
          simpa using ih (count + bc) r0 r' hrec
      | some rng =>
        rw [aggLoop_cons_some, if_neg hc] at h
        cases hrec : aggLoop cl maxR (count + bc) (r0 + 1) rest with
        | none => rw [hrec] at h; simp at h
        | some r' =>
          rw [hrec] at h
          simp only [] at h
          cases h
          have hih := ih (count + bc) (r0 + 1) r' hrec
          constructor
          · simp only [List.length_cons]
            rw [hih.1]
            push_cast
            ring
          · simp only [List.length_cons]
            rw [countP_range_succ_shift maxR r'.resubmitted.length r0, hih.2]

/-- Every failed chunk range received by the aggregation loop is
resubmitted: on a normally terminating run, the resubmitted list is
exactly the list of error-channel ranges in the processed prefix of the
event sequence. -/
lemma aggLoop_resubmitted (cl : Nat) (maxR : Int) :
    ∀ (evs : List LoopEvent) (count : Nat) (retries : Int) (r : AggResult),
      aggLoop cl maxR count retries evs = some r →
      r.resubmitted = (evs.take r.delivered.length).filterMap Prod.snd := by
  intro evs
  induction evs with
  | nil =>
    intro count retries r h
    rw [aggLoop_nil] at h
    by_cases hc : count = cl
    · rw [if_pos hc] at h
      cases h
      simp
    · rw [if_neg hc] at h
      cases h
  | cons ev rest ih =>
    intro count retries r h
    obtain ⟨bc, err⟩ := ev
    by_cases hc : count = cl
    · cases err with
      | none =>
        rw [aggLoop_cons_none, if_pos hc] at h
        cases h
        simp
      | some rng =>
        rw [aggLoop_cons_some, if_pos hc] at h
        cases h
        simp
    · cases err with
      | none =>
        rw [aggLoop_cons_none, if_neg hc] at h
        cases hrec : aggLoop cl maxR (count + bc) retries rest with
        | none => rw [hrec] at h; simp at h
        | some r' =>
          rw [hrec] at h
          simp only [] at h
          cases h
          have hr := ih (count + bc) retries r' hrec
          simp only [List.length_cons, List.take_succ_cons,
            List.filterMap_cons]
          simpa using hr
      | some rng =>
        rw [aggLoop_cons_some, if_neg hc] at h
        cases hrec : aggLoop cl maxR (count + bc) (retries + 1) rest with
        | none => rw [hrec] at h; simp at h
        | some r' =>
          rw [hrec] at h
          simp only [] at h
          cases h
          have hr := ih (count + bc) (retries + 1) r' hrec
          simp only [List.length_cons, List.take_succ_cons,
            List.filterMap_cons]
          simpa using hr

/-- The observable behaviour of the aggregation loop (whether it
terminates normally, what it delivers and what it resubmits) does not
depend on the retry budget or on the current retry counter. -/
lemma aggLoop_indep (cl : Nat) (maxR maxR' : Int) :
    ∀ (evs : List LoopEvent) (count : Nat) (retries retries' : Int),
      (aggLoop cl maxR count retries evs).map
        (fun r => (r.delivered, r.resubmitted)) =
      (aggLoop cl maxR' count retries' evs).map
        (fun r => (r.delivered, r.resubmitted)) := by
  intro evs
  induction evs with
  | nil =>
    intro count retries retries'
    rw [aggLoop_nil, aggLoop_nil]
    by_cases hc : count = cl <;> simp [hc]
  | cons ev rest ih =>
    intro count retries retries'
    obtain ⟨bc, err⟩ := ev
    by_cases hc : count = cl
    · cases err with
      | none =>
        rw [aggLoop_cons_none, aggLoop_cons_none]
        simp [hc]
      | some rng =>
        rw [aggLoop_cons_some, aggLoop_cons_some]
        simp [hc]
    · cases err with
      | none =>
        rw [aggLoop_cons_none, aggLoop_cons_none]
        have h := ih (count + bc) retries retries'
        cases h1 : aggLoop cl maxR (count + bc) retries rest with
        | none =>
          cases h2 : aggLoop cl maxR' (count + bc) retries' rest with
          | none => simp [hc]
          | some r2 => rw [h1, h2] at h; simp at h
        | some r1 =>
          cases h2 : aggLoop cl maxR' (count + bc) retries' rest with
          | none => rw [h1, h2] at h; simp at h
          | some r2 =>
            rw [h1, h2] at h
            simp only [Option.map_some'] at h
            rw [if_neg hc, if_neg hc]
            have hd : r1.delivered = r2.delivered := by
              have := congrArg Prod.fst (Option.some.inj h)
              simpa using this
            have hs : r1.resubmitted = r2.resubmitted := by
              have := congrArg Prod.snd (Option.some.inj h)
              simpa using this
            simp [hd, hs]
      | some rng =>
        rw [aggLoop_cons_some, aggLoop_cons_some]
        have h := ih (count + bc) (retries + 1) (retries' + 1)
        cases h1 : aggLoop cl maxR (count + bc) (retries + 1) rest with
        | none =>
          cases h2 : aggLoop cl maxR' (count + bc) (retries' + 1) rest with
          | none => simp [hc]
          | some r2 => rw [h1, h2] at h; simp at h
        | some r1 =>
          cases h2 : aggLoop cl maxR' (count + bc) (retries' + 1) rest with
          | none => rw [h1, h2] at h; simp at h
          | some r2 =>
            rw [h1, h2] at h
            simp only [Option.map_some'] at h
            rw [if_neg hc, if_neg hc]
            have hd : r1.delivered = r2.delivered := by
              have := congrArg Prod.fst (Option.some.inj h)
              simpa using this
            have hs : r1.resubmitted = r2.resubmitted := by
              have := congrArg Prod.snd (Option.some.inj h)
              simpa using this
            simp [hd, hs]

/-- Claim C4 (as stated) is false: in this terminating run
(`content_length = 1`, `max_retries = 0`) exactly one failed chunk range
is received, the retry counter after its increment is `1 > 0 = max_retries`,
yet `on_max_retries` fires 0 times — the code compares `retries` with
`max_retries` *before* incrementing (core.rs lines 204-209). -/
theorem C4_counterexample :
    concurrent_download 1 0 none [(0, some (0, 0)), (1, none)] =
      some ⟨[0, 1], [(0, 0)], 0, 1⟩ ∧
    (1 : Int) > (0 : Int) := by
  constructor
  · decide
  · decide

/-- Claim C4 amended: on every normally terminating run of the concurrent
path, the retry counter is incremented once per failed chunk range
received (so it ends equal to the number of failures), and
`on_max_retries` fires exactly at those failures whose pre-increment
counter value `k` (the 0-based failure index) exceeds `max_retries` —
equivalently, exactly when the counter *after* the increment exceeds
`max_retries + 1`, not `max_retries`. -/
theorem C4_fire_rule (content_len : Nat) (max_retries : Int)
    (bytes_on_disk : Option Nat) (evs : List LoopEvent) (r : AggResult)
    (h : concurrent_download content_len max_retries bytes_on_disk evs = some r) :
    r.retriesFinal = (r.resubmitted.length : Int) ∧
    r.maxRetriesFired =
      (List.range r.resubmitted.length).countP
        (fun (k : Nat) => decide ((k : Int) > max_retries)) := by
  have hr := aggLoop_retries content_len max_retries evs
    (bytes_on_disk.getD 0) 0 r h
  refine ⟨by rw [hr.1]; ring, ?_⟩
  rw [hr.2]
  apply List.countP_congr
  intro a _
  simp only [decide_eq_true_eq]
  omega

/-- Witness for C4 at a concrete run: two failures with `max_retries = 0`,
the second of which fires `on_max_retries`. -/
theorem C4_fire_rule_witness :
    (AggResult.mk [1, 1, 3] [(0, 4), (2, 4)] 1 2).retriesFinal =
      ((AggResult.mk [1, 1, 3] [(0, 4), (2, 4)] 1 2).resubmitted.length : Int) ∧
    (AggResult.mk [1, 1, 3] [(0, 4), (2, 4)] 1 2).maxRetriesFired =
      (List.range
          (AggResult.mk [1, 1, 3] [(0, 4), (2, 4)] 1 2).resubmitted.length).countP
        (fun (k : Nat) => decide ((k : Int) > (0 : Int))) :=
  C4_fire_rule 5 0 none [(1, some (0, 4)), (1, some (2, 4)), (3, none)]
    ⟨[1, 1, 3], [(0, 4), (2, 4)], 1, 2⟩ (by decide)

/-- Claim C5: exceeding the retry budget never terminates the aggregation
loop and never fails the download.  First conjunct: on every normally
terminating run, every failed chunk range received on the error channel —
regardless of the current retry count — appears in the resubmitted list
(the resubmitted list is exactly the error ranges of the processed
prefix).  Second conjunct: whether the loop terminates normally, what it
delivers and what it resubmits are all independent of `max_retries` and
of the current retry counter, so exceeding the budget changes nothing but
the `on_max_retries` notification. -/
theorem C5_unbounded_retry (content_len count : Nat)
    (max_retries max_retries' retries retries' : Int) (evs : List LoopEvent) :
    (∀ r : AggResult,
      aggLoop content_len max_retries count retries evs = some r →
      r.resubmitted = (evs.take r.delivered.length).filterMap Prod.snd) ∧
    (aggLoop content_len max_retries count retries evs).map
        (fun r => (r.delivered, r.resubmitted)) =
      (aggLoop content_len max_retries' count retries' evs).map
        (fun r => (r.delivered, r.resubmitted)) :=
  ⟨fun r h => aggLoop_resubmitted content_len max_retries evs count retries r h,
   aggLoop_indep content_len max_retries max_retries' evs count retries retries'⟩

/-- Witness for C5 at a concrete run whose retry counter (7) is already
past the budget (0): the failed range is still resubmitted and the run
behaves exactly as with a fresh counter and a large budget. -/
theorem C5_unbounded_retry_witness :
    (AggResult.mk [5, 5] [(1, 2)] 1 8).resubmitted =
      (([((5 : Nat), some ((1 : Nat), (2 : Nat))), (5, none)].take
          (AggResult.mk [5, 5] [(1, 2)] 1 8).delivered.length).filterMap
        Prod.snd) ∧
    (aggLoop 10 0 0 7 [((5 : Nat), some ((1 : Nat), (2 : Nat))), (5, none)]).map
        (fun r => (r.delivered, r.resubmitted)) =
      (aggLoop 10 5 0 0 [((5 : Nat), some ((1 : Nat), (2 : Nat))), (5, none)]).map
        (fun r => (r.delivered, r.resubmitted)) :=
  ⟨(C5_unbounded_retry 10 0 0 5 7 0
      [((5 : Nat), some ((1 : Nat), (2 : Nat))), (5, none)]).1
      ⟨[5, 5], [(1, 2)], 1, 8⟩ (by decide),
   (C5_unbounded_retry 10 0 0 5 7 0
      [((5 : Nat), some ((1 : Nat), (2 : Nat))), (5, none)]).2⟩


/-- The read/send loop of `download_chunk::inner` (core.rs lines 261-275),
driven by a trace of read outcomes.  `some byte_count` means `resp.read`
returned `byte_count` bytes and, when `byte_count > 0`, the following
`sender.send` succeeded; `none` means the read or the send failed, which
aborts `inner` with an error before `start_offset` is advanced for that
iteration (lines 263 and 267-268).  A trace that runs out before the loop
breaks is likewise a failed read.  Per iteration the code adds
`byte_count` to `cnt` (line 264), on a non-empty buffer sends
`(byte_count, start_offset, buf)` and advances `start_offset` (lines
266-268), on an empty buffer breaks successfully (line 270), and breaks
successfully once `cnt == chunk_sz + 1` (line 272).  Returns the sent
`(byte_count, offset)` pairs (payload bytes are opaque), the final
`start_offset`, and whether `inner` returned `Ok`. -/
def chunkLoop (chunk_sz : Nat) :
    Nat → Nat → List (Option Nat) → List (Nat × Nat) × Nat × Bool
  | start_offset, _cnt, [] => ([], start_offset, false)
  | start_offset, _cnt, none :: _ => ([], start_offset, false)
  | start_offset, cnt, some byte_count :: rest =>
    if byte_count = 0 then ([], start_offset, true)
    else if cnt + byte_count = chunk_sz + 1 then
      ([(byte_count, start_offset)], start_offset + byte_count, true)
    else
      ((byte_count, start_offset) ::
          (chunkLoop chunk_sz (start_offset + byte_count)
            (cnt + byte_count) rest).1,
        (chunkLoop chunk_sz (start_offset + byte_count)
          (cnt + byte_count) rest).2)

/-- `download_chunk` (core.rs lines 241-287).  `connect_ok` models the
fallible pre-loop part of `inner` (`HeaderValue::from_str` at lines
253-257 and `Client::execute` at line 258).  `chunk_sz` is
`offsets.1 - offsets.0` (line 259); `start_offset` is the local mutable
variable initialised to `offsets.0` (line 279) and advanced by `inner`
after each successful send.  On `Err` from `inner` the pair
`(start_offset, end_offset)` — with `start_offset` as advanced so far —
is sent on the error channel (lines 281-286); on `Ok` nothing is. -/
def download_chunk (offsets : Nat × Nat) (connect_ok : Bool)
    (reads : List (Option Nat)) :
    List (Nat × Nat) × Option (Nat × Nat) :=
  let start_offset := offsets.1
  let end_offset := offsets.2
  if connect_ok then
    let r := chunkLoop (offsets.2 - offsets.1) start_offset 0 reads
    (r.1, if r.2.2 then none else some (r.2.1, end_offset))
  else
    ([], some (start_offset, end_offset))

/-- The final `start_offset` of the read/send loop equals the initial one
plus the bytes successfully sent. -/
lemma chunkLoop_offset (sz : Nat) :
    ∀ (reads : List (Option Nat)) (so cnt : Nat),
      (chunkLoop sz so cnt reads).2.1 =
        so + ((chunkLoop sz so cnt reads).1.map Prod.fst).sum := by
  intro reads
  induction reads with
  | nil =>
    intro so cnt
    simp [chunkLoop]
  | cons rd rest ih =>
    intro so cnt
    cases rd with
    | none => simp [chunkLoop]
    | some bc =>
      by_cases h0 : bc = 0
      · simp [chunkLoop, h0]
      · by_cases hfull : cnt + bc = sz + 1
        · simp [chunkLoop, h0, hfull]
        · rw [chunkLoop]
          rw [if_neg h0, if_neg hfull]
          simp only [List.map_cons, List.sum_cons]
          rw [ih (so + bc) (cnt + bc)]
          omega

/-- Claim C3 (as stated) is false: the worker for chunk `(0, 9)` connects,
reads and sends 5 bytes, then fails; the error channel receives `(5, 9)` —
the *advanced* `start_offset`, not the original range `(0, 9)`.  Partial
progress is in fact resumed at sub-chunk granularity. -/
theorem C3_counterexample :
    download_chunk (0, 9) true [some 5, none] = ([(5, 0)], some (5, 9)) ∧
    some ((5 : Nat), (9 : Nat)) ≠ some ((0 : Nat), (9 : Nat)) := by
  constructor <;> decide

/-- Claim C3 amended: when a worker fails, the range reported on the error
channel keeps the original end offset, but its start offset is the
original start *advanced by the bytes already sent*; it equals the
original, unmodified range exactly when the failure happened before any
successful send. -/
theorem C3_error_report (offsets : Nat × Nat) (connect_ok : Bool)
    (reads : List (Option Nat)) (e : Nat × Nat)
    (h : (download_chunk offsets connect_ok reads).2 = some e) :
    e.2 = offsets.2 ∧
    e.1 = offsets.1 +
      ((download_chunk offsets connect_ok reads).1.map Prod.fst).sum ∧
    ((download_chunk offsets connect_ok reads).1 = [] → e = offsets) := by
  cases connect_ok with
  | false =>
    have hd : download_chunk offsets false reads =
        ([], some (offsets.1, offsets.2)) := rfl
    rw [hd] at h ⊢
    cases h
    refine ⟨rfl, by simp, fun _ => ?_⟩
    exact Prod.mk.eta
  | true =>
    have hd : download_chunk offsets true reads =
        ((chunkLoop (offsets.2 - offsets.1) offsets.1 0 reads).1,
          if (chunkLoop (offsets.2 - offsets.1) offsets.1 0 reads).2.2 = true
          then none
          else some ((chunkLoop (offsets.2 - offsets.1) offsets.1 0 reads).2.1,
            offsets.2)) := rfl
    rw [hd] at h ⊢
    by_cases hok :
        (chunkLoop (offsets.2 - offsets.1) offsets.1 0 reads).2.2 = true
    · rw [if_pos hok] at h
      cases h
    · rw [if_neg hok] at h
      cases h
      refine ⟨rfl, chunkLoop_offset (offsets.2 - offsets.1) reads offsets.1 0,
        fun hnil => ?_⟩
      have hnil' : (chunkLoop (offsets.2 - offsets.1) offsets.1 0 reads).1 =
          [] := hnil
      have hoff := chunkLoop_offset (offsets.2 - offsets.1) reads offsets.1 0
      rw [hnil'] at hoff
      simp only [List.map_nil, List.sum_nil, add_zero] at hoff
      rw [hoff]

/-- Witness for C3 at the run of `C3_counterexample`. -/
theorem C3_error_report_witness :
    ((5 : Nat), (9 : Nat)).2 = ((0 : Nat), (9 : Nat)).2 ∧
    ((5 : Nat), (9 : Nat)).1 = ((0 : Nat), (9 : Nat)).1 +
      ((download_chunk (0, 9) true [some 5, none]).1.map Prod.fst).sum ∧
    ((download_chunk (0, 9) true [some 5, none]).1 = [] →
      ((5 : Nat), (9 : Nat)) = ((0 : Nat), (9 : Nat))) :=
  C3_error_report (0, 9) true [some 5, none] (5, 9) (by decide)

/-- Resume-capability test of `download` (core.rs lines 96-99): the
server is resume-capable iff the probe response carries an
`accept-ranges` header whose value equals the literal `"bytes"`. -/
def server_supports_bytes (accept_ranges : Option String) : Bool :=
  match accept_ranges with
  | some val => val = "bytes"
  | none => false

/-- The header-negotiation step of `download` (core.rs lines 101-108), the
only place that writes to `self.conf`: when the server supports byte
ranges and the configured headers contain a `range` header, the `range`
header is removed iff `conf.concurrent` (line 103), and
`on_server_supports_resume` is fired on every registered hook (the
for-loop at lines 105-107).  Returns the configuration afterwards and
whether the event was fired. -/
def negotiate (conf : Config) (ssb : Bool) : Config × Bool :=
  if ssb && containsKey conf.headers rangeKey then
    (if conf.concurrent then
        { conf with headers := removeKey conf.headers rangeKey }
      else conf,
     true)
  else (conf, false)

/-- The two download strategies of `download`. -/
inductive DLPath where
  | concurrentPath
  | singlethreadPath
deriving DecidableEq

/-- Strategy selection of `download` (core.rs lines 121-125): the
concurrent path is taken iff the server supports byte ranges, the caller
requested concurrency, and the probe response has a content-length
header; otherwise `singlethread_download` runs. -/
def choose_path (ssb concurrent has_content_length : Bool) : DLPath :=
  if ssb && concurrent && has_content_length then DLPath.concurrentPath
  else DLPath.singlethreadPath

/-- A concrete configuration used by witnesses and counterexamples: its
headers carry a `range` header and concurrency is requested. -/
def sampleConf : Config where
  user_agent := "agent"
  resume := true
  headers := [("range", "bytes=100-")]
  file := "mod.zip"
  save_path := "mods"
  timeout := 30
  concurrent := true
  max_retries := 3
  num_workers := 4
  bytes_on_disk := none
  chunk_offsets := none
  chunk_size := 1024

/-- Removing a key really removes it. -/
lemma containsKey_removeKey (hs : HeadersModel) (k : String) :
    containsKey (removeKey hs k) k = false := by
  unfold containsKey removeKey
  simp only [List.any_eq_false, List.mem_filter, decide_eq_true_eq]
  intro kv hkv
  intro hcontra
  exact absurd hcontra (by simpa using hkv.2)

/-- Claim C7: if the probe response has no content-length header, the
single-stream path is taken, for every accept-ranges value the server may
advertise and every configuration (in particular for every value of the
`concurrent` flag). -/
theorem C7_fallback (accept_ranges : Option String) (conf : Config) :
    choose_path (server_supports_bytes accept_ranges) conf.concurrent false =
      DLPath.singlethreadPath := by
  unfold choose_path
  simp

/-- Claim C8 (as stated) is false: `download` mutates the configuration it
was constructed with.  For `sampleConf` (whose headers contain a `range`
header, with `concurrent = true`) and a probe response advertising
`accept-ranges: bytes`, the negotiation step at core.rs line 103 removes
the `range` header from `conf.headers`, so the configuration after the
step differs from the one before. -/
theorem C8_counterexample :
    (negotiate sampleConf (server_supports_bytes (some "bytes"))).1 ≠
      sampleConf := by
  decide

/-- Claim C8 amended: during one `download()` invocation every field of
the bound configuration other than `headers` is preserved, and `headers`
itself is preserved — except that when the server supports byte ranges,
the configured headers contain a `range` header and `concurrent` is set,
exactly the `range` entries are removed (every other entry survives and
no new entry appears). -/
theorem C8_frame (conf : Config) (ssb : Bool) :
    ((negotiate conf ssb).1).user_agent = conf.user_agent ∧
    ((negotiate conf ssb).1).resume = conf.resume ∧
    ((negotiate conf ssb).1).file = conf.file ∧
    ((negotiate conf ssb).1).save_path = conf.save_path ∧
    ((negotiate conf ssb).1).timeout = conf.timeout ∧
    ((negotiate conf ssb).1).concurrent = conf.concurrent ∧
    ((negotiate conf ssb).1).max_retries = conf.max_retries ∧
    ((negotiate conf ssb).1).num_workers = conf.num_workers ∧
    ((negotiate conf ssb).1).bytes_on_disk = conf.bytes_on_disk ∧
    ((negotiate conf ssb).1).chunk_offsets = conf.chunk_offsets ∧
    ((negotiate conf ssb).1).chunk_size = conf.chunk_size ∧
    (∀ kv, kv ∈ ((negotiate conf ssb).1).headers → kv ∈ conf.headers) ∧
    (∀ kv, kv ∈ conf.headers → kv.1 ≠ rangeKey →
      kv ∈ ((negotiate conf ssb).1).headers) ∧
    (¬(ssb = true ∧ containsKey conf.headers rangeKey = true ∧
        conf.concurrent = true) →
      (negotiate conf ssb).1 = conf) := by
  by_cases h1 : (ssb && containsKey conf.headers rangeKey) = true
  · by_cases h2 : conf.concurrent = true
    · have hd : (negotiate conf ssb).1 =
          { conf with headers := removeKey conf.headers rangeKey } := by
        unfold negotiate
        rw [if_pos h1, if_pos h2]
      rw [hd]
      refine ⟨rfl, rfl, rfl, rfl, rfl, rfl, rfl, rfl, rfl, rfl, rfl,
        ?_, ?_, ?_⟩
      · intro kv hkv
        exact (List.mem_filter.mp hkv).1
      · intro kv hkv hne
        exact List.mem_filter.mpr ⟨hkv, by simpa using hne⟩
      · intro hcontra
        rw [Bool.and_eq_true] at h1
        exact absurd ⟨h1.1, h1.2, h2⟩ hcontra
    · have hd : (negotiate conf ssb).1 = conf := by
        unfold negotiate
        rw [if_pos h1, if_neg h2]
      rw [hd]
      exact ⟨rfl, rfl, rfl, rfl, rfl, rfl, rfl, rfl, rfl, rfl, rfl,
        fun kv h => h, fun kv h _ => h, fun _ => rfl⟩
  · have hd : (negotiate conf ssb).1 = conf := by
      unfold negotiate
      rw [if_neg h1]
    rw [hd]
    exact ⟨rfl, rfl, rfl, rfl, rfl, rfl, rfl, rfl, rfl, rfl, rfl,
      fun kv h => h, fun kv h _ => h, fun _ => rfl⟩

/-- Witness for C8 at `sampleConf` with a range-capable server. -/
theorem C8_frame_witness :
    ((negotiate sampleConf true).1).user_agent = sampleConf.user_agent ∧
    ((negotiate sampleConf true).1).resume = sampleConf.resume ∧
    ((negotiate sampleConf true).1).file = sampleConf.file ∧
    ((negotiate sampleConf true).1).save_path = sampleConf.save_path ∧
    ((negotiate sampleConf true).1).timeout = sampleConf.timeout ∧
    ((negotiate sampleConf true).1).concurrent = sampleConf.concurrent ∧
    ((negotiate sampleConf true).1).max_retries = sampleConf.max_retries ∧
    ((negotiate sampleConf true).1).num_workers = sampleConf.num_workers ∧
    ((negotiate sampleConf true).1).bytes_on_disk = sampleConf.bytes_on_disk ∧
    ((negotiate sampleConf true).1).chunk_offsets = sampleConf.chunk_offsets ∧
    ((negotiate sampleConf true).1).chunk_size = sampleConf.chunk_size ∧
    (∀ kv, kv ∈ ((negotiate sampleConf true).1).headers →
      kv ∈ sampleConf.headers) ∧
    (∀ kv, kv ∈ sampleConf.headers → kv.1 ≠ rangeKey →
      kv ∈ ((negotiate sampleConf true).1).headers) ∧
    (¬(true = true ∧ containsKey sampleConf.headers rangeKey = true ∧
        sampleConf.concurrent = true) →
      (negotiate sampleConf true).1 = sampleConf) :=
  C8_frame sampleConf true

/-- Claim C9: whenever the probe response's accept-ranges header equals
`"bytes"` and the configured headers contain a `range` header,
`on_server_supports_resume` is fired (on every hook — the loop at
core.rs lines 105-107 visits each) even when `concurrent` is false, and
the `range` header is removed from the configured headers exactly when
`concurrent` is true. -/
theorem C9_resume_event (accept_ranges : Option String) (conf : Config)
    (ha : accept_ranges = some "bytes")
    (hr : containsKey conf.headers rangeKey = true) :
    (negotiate conf (server_supports_bytes accept_ranges)).2 = true ∧
    (conf.concurrent = true →
      containsKey
        ((negotiate conf (server_supports_bytes accept_ranges)).1).headers
        rangeKey = false) ∧
    (conf.concurrent = false →
      (negotiate conf (server_supports_bytes accept_ranges)).1 = conf) := by
  subst ha
  have hssb : server_supports_bytes (some "bytes") = true := rfl
  rw [hssb]
  have h1 : (true && containsKey conf.headers rangeKey) = true := by
    rw [hr]
    rfl
  refine ⟨?_, ?_, ?_⟩
  · unfold negotiate
    rw [if_pos h1]
  · intro h2
    have hd : (negotiate conf true).1 =
        { conf with headers := removeKey conf.headers rangeKey } := by
      unfold negotiate
      rw [if_pos h1, if_pos h2]
    rw [hd]
    exact containsKey_removeKey conf.headers rangeKey
  · intro h2
    have h2' : ¬(conf.concurrent = true) := by
      rw [h2]
      exact Bool.false_ne_true
    unfold negotiate
    rw [if_pos h1, if_neg h2']

/-- Witness for C9 at `sampleConf` (concurrent) — the event fires and the
range header is gone afterwards. -/
theorem C9_resume_event_witness :
    (negotiate sampleConf (server_supports_bytes (some "bytes"))).2 = true ∧
    (sampleConf.concurrent = true →
      containsKey
        ((negotiate sampleConf (server_supports_bytes (some "bytes"))).1).headers
        rangeKey = false) ∧
    (sampleConf.concurrent = false →
      (negotiate sampleConf (server_supports_bytes (some "bytes"))).1 =
        sampleConf) :=
  C9_resume_event (some "bytes") sampleConf rfl (by decide)

end ModDownloader
